import Mathlib

/-!
Verification of the ATM state machine in
`final-project/state-machine-atm/src/atm.rs`.

The machine state (`struct Atm`) bundles the cash inventory, the
authentication phase (`enum Auth`, stored in the field named
`expected_pin_hash`), and the keystroke register.  `next_state` is the
pure transition function of the `StateMachine` impl; the `DefaultHasher`
fingerprint used by the PIN check is external library code, so it is
modelled as an explicit function argument `hash64 : Auth → Nat`.
Machine integers (`u64`) are modelled as `Nat`; the one place the u64
range matters — `str::parse::<u64>` rejecting values above `u64::MAX` —
carries an explicit `2 ^ 64` bound.
-/

namespace StateMachineAtm

/-- Keys on the ATM keypad (`enum Key`). -/
inductive Key where
  | One
  | Two
  | Three
  | Four
  | Enter
  deriving DecidableEq, Repr

/-- Input events (`enum Action`): a card swipe carrying a credential
fingerprint, or a keypad press. -/
inductive Action where
  | SwipeCard (pin_hash : Nat)
  | PressKey (key : Key)
  deriving DecidableEq, Repr

/-- Authentication phases (`enum Auth`). -/
inductive Auth where
  | Waiting
  | Authenticating (expected : Nat)
  | Authenticated
  deriving DecidableEq, Repr

/-- The full machine state (`struct Atm`).  The source stores the
authentication phase in the field named `expected_pin_hash`. -/
structure Atm where
  cash_inside : Nat
  expected_pin_hash : Auth
  keystroke_register : List Key
  deriving DecidableEq, Repr

/-- Character sequence of the string produced by `impl From Key for str`. -/
def from_key : Key → List Char
  | Key.One => ['1']
  | Key.Two => ['2']
  | Key.Three => ['3']
  | Key.Four => ['4']
  | Key.Enter => ['E', 'n', 't', 'e', 'r']

/-- The accumulation loop of `calculate_withdrawal_amount`: push each
key's string until the first `Enter`. -/
def amount_str : List Key → List Char
  | [] => []
  | Key.Enter :: _ => []
  | k :: rest => from_key k ++ amount_str rest

/-- Model of `str::parse::<u64>().ok()` on the strings arising here
(no sign characters occur): success exactly on a non-empty all-digit
string whose decimal value fits in a `u64`. -/
def parse_u64 (cs : List Char) : Option Nat :=
  if cs = [] then none
  else if cs.all Char.isDigit then
    let v := cs.foldl (fun a c => a * 10 + (c.toNat - 48)) 0
    if v < 2 ^ 64 then some v else none
  else none

/-- `fn calculate_withdrawal_amount`: digits before the first `Enter`,
concatenated and parsed as a `u64`. -/
def calculate_withdrawal_amount (keystroke_register : List Key) : Option Nat :=
  parse_u64 (amount_str keystroke_register)

/-- The transition function `Atm::next_state` of the `StateMachine` impl.
The source matches on the authentication phase and the event; the PIN
check hashes the current phase value itself (`starting_state.hash`) and
compares the result with the stored credential.  The hash function of
`DefaultHasher` is external, hence the `hash64` parameter. -/
def next_state (hash64 : Auth → Nat) (s : Atm) (t : Action) : Atm :=
  match s.expected_pin_hash, t with
  | Auth.Waiting, Action.SwipeCard pin_hash =>
      { s with expected_pin_hash := Auth.Authenticating pin_hash }
  | Auth.Authenticating pin_hash, Action.PressKey Key.Enter =>
      if hash64 (Auth.Authenticating pin_hash) = pin_hash then
        { s with expected_pin_hash := Auth.Authenticated, keystroke_register := [] }
      else
        { s with expected_pin_hash := Auth.Waiting, keystroke_register := [] }
  | Auth.Authenticated, Action.PressKey Key.Enter =>
      match calculate_withdrawal_amount s.keystroke_register with
      | some amount =>
          if s.cash_inside ≥ amount then
            { cash_inside := s.cash_inside - amount
              expected_pin_hash := Auth.Waiting
              keystroke_register := [] }
          else
            { s with expected_pin_hash := Auth.Waiting, keystroke_register := [] }
      | none =>
          { s with expected_pin_hash := Auth.Waiting, keystroke_register := [] }
  | _, _ => s

/-- The initial state built by the driver: phase `Waiting`, empty
register, given cash inventory. -/
def initialAtm (cash : Nat) : Atm :=
  { cash_inside := cash, expected_pin_hash := Auth.Waiting, keystroke_register := [] }

/-- Sequential application of `next_state` to a list of events. -/
def run (hash64 : Auth → Nat) (s : Atm) : List Action → Atm
  | [] => s
  | t :: ts => run hash64 (next_state hash64 s t) ts

/-- Whether a phase is one of the two in-session phases. -/
def inAuthSession : Auth → Bool
  | Auth.Waiting => false
  | Auth.Authenticating _ => true
  | Auth.Authenticated => true

/-- Decimal digit character corresponding to a digit key (`Enter` is
mapped to an arbitrary non-digit; it never occurs before itself). -/
def digitChar : Key → Char
  | Key.One => '1'
  | Key.Two => '2'
  | Key.Three => '3'
  | Key.Four => '4'
  | Key.Enter => 'E'

/-- Numeric value of a digit key. -/
def keyVal : Key → Nat
  | Key.One => 1
  | Key.Two => 2
  | Key.Three => 3
  | Key.Four => 4
  | Key.Enter => 0

/-- The keys of the register strictly before the first `Enter`. -/
def keysBeforeEnter : List Key → List Key
  | [] => []
  | Key.Enter :: _ => []
  | k :: rest => k :: keysBeforeEnter rest

/-- Decimal value of a digit-key sequence, most significant first. -/
def decVal (ds : List Key) : Nat :=
  ds.foldl (fun a k => a * 10 + keyVal k) 0

/-! Helper lemmas. -/

theorem from_key_of_digit (k : Key) (hk : k ≠ Key.Enter) :
    from_key k = [digitChar k] := by
  cases k <;> first
    | rfl
    | exact absurd rfl hk

theorem amount_str_eq_map (ks : List Key) :
    amount_str ks = (keysBeforeEnter ks).map digitChar := by
  induction ks with
  | nil => rfl
  | cons k rest ih =>
      cases k <;> simp [amount_str, keysBeforeEnter, from_key, digitChar, ih]

theorem map_digitChar_all_digits (ks : List Key) :
    ((keysBeforeEnter ks).map digitChar).all Char.isDigit = true := by
  induction ks with
  | nil => rfl
  | cons k rest ih =>
      cases k <;> simp_all [keysBeforeEnter, digitChar]

theorem digitChar_toNat_sub (k : Key) (hk : k ≠ Key.Enter) :
    (digitChar k).toNat - 48 = keyVal k := by
  cases k <;> first
    | decide
    | exact absurd rfl hk

theorem foldl_map_digitChar (ks : List Key) :
    ∀ a : Nat,
      ((keysBeforeEnter ks).map digitChar).foldl (fun a c => a * 10 + (c.toNat - 48)) a =
        (keysBeforeEnter ks).foldl (fun a k => a * 10 + keyVal k) a := by
  induction ks with
  | nil => intro a; rfl
  | cons k rest ih =>
      intro a
      cases k
      case Enter => rfl
      all_goals
        simp only [keysBeforeEnter, List.map_cons, List.foldl_cons]
        rw [digitChar_toNat_sub]
        · exact ih _
        · decide

theorem calculate_withdrawal_amount_spec (ks : List Key) :
    calculate_withdrawal_amount ks =
      (if keysBeforeEnter ks = [] then none
       else if decVal (keysBeforeEnter ks) < 2 ^ 64 then
         some (decVal (keysBeforeEnter ks))
       else none) := by
  unfold calculate_withdrawal_amount parse_u64
  rw [amount_str_eq_map]
  by_cases h : keysBeforeEnter ks = []
  · simp [h]
  · have hne : (keysBeforeEnter ks).map digitChar ≠ [] := by
      simpa using h
    simp only [hne, if_neg, map_digitChar_all_digits, if_pos, if_true]
    rw [foldl_map_digitChar]
    simp [h, decVal]

theorem next_state_keeps_empty_register (hash64 : Auth → Nat) (s : Atm)
    (t : Action) (h : s.keystroke_register = []) :
    (next_state hash64 s t).keystroke_register = [] := by
  obtain ⟨c, ph, reg⟩ := s
  replace h : reg = [] := h
  subst h
  cases t with
  | SwipeCard p => cases ph <;> simp [next_state]
  | PressKey k =>
      cases ph <;> cases k <;>
        (simp [next_state, calculate_withdrawal_amount, amount_str, parse_u64];
          try (split <;> simp))

theorem run_keeps_empty_register (hash64 : Auth → Nat) (acts : List Action) :
    ∀ s : Atm, s.keystroke_register = [] →
      (run hash64 s acts).keystroke_register = [] := by
  induction acts with
  | nil => intro s h; exact h
  | cons t ts ih =>
      intro s h
      exact ih _ (next_state_keeps_empty_register hash64 s t h)

/-! Claim theorems. -/

/-- C1: the spec (and the repository's own tests) say that pressing a
digit key in phase `Authenticating` or `Authenticated` appends the digit
to the keystroke register.  The source's `next_state` has no
digit-appending branch: the event falls into the default arm, which
clones the input state.  Evaluating the code at the failing input of
test `sm_3_enter_single_digit_of_pin` shows the register stays empty
instead of becoming `[Key.One]`. -/
theorem c1_digit_press_returns_state_unchanged :
    next_state (fun _ => 0) (Atm.mk 10 (Auth.Authenticating 1234) [])
        (Action.PressKey Key.One) =
      Atm.mk 10 (Auth.Authenticating 1234) [] := by
  decide

/-- C2: from phase `Authenticated`, when the keystroke register parses to
an amount `a ≤ cash_inside`, pressing `Enter` yields phase `Waiting`,
empty register, and `cash_inside` decremented by `a`. -/
theorem c2_withdrawal_within_funds (hash64 : Auth → Nat) (s : Atm) (a : Nat)
    (hph : s.expected_pin_hash = Auth.Authenticated)
    (hamt : calculate_withdrawal_amount s.keystroke_register = some a)
    (hle : a ≤ s.cash_inside) :
    next_state hash64 s (Action.PressKey Key.Enter) =
      Atm.mk (s.cash_inside - a) Auth.Waiting [] := by
  obtain ⟨c, ph, reg⟩ := s
  replace hph : ph = Auth.Authenticated := hph
  subst hph
  replace hamt : calculate_withdrawal_amount reg = some a := hamt
  replace hle : a ≤ c := hle
  simp [next_state, hamt, hle]

theorem c2_witness :
    (Atm.mk 10 Auth.Authenticated [Key.One]).expected_pin_hash = Auth.Authenticated ∧
    calculate_withdrawal_amount
        (Atm.mk 10 Auth.Authenticated [Key.One]).keystroke_register = some 1 ∧
    next_state (fun _ => 0) (Atm.mk 10 Auth.Authenticated [Key.One])
        (Action.PressKey Key.Enter) =
      Atm.mk 9 Auth.Waiting [] :=
  ⟨rfl, by decide,
    c2_withdrawal_within_funds (fun _ => 0) (Atm.mk 10 Auth.Authenticated [Key.One]) 1
      rfl (by decide) (by decide)⟩

/-- C3: from phase `Authenticating c`, pressing `Enter` recomputes the
fingerprint of the current phase value `Authenticating c` itself and
compares it with `c`; equality gives phase `Authenticated`, inequality
gives `Waiting`, and the register is cleared in both cases. -/
theorem c3_enter_checks_phase_fingerprint (hash64 : Auth → Nat) (s : Atm)
    (c : Nat) (hph : s.expected_pin_hash = Auth.Authenticating c) :
    (next_state hash64 s (Action.PressKey Key.Enter)).expected_pin_hash =
      (if hash64 (Auth.Authenticating c) = c then Auth.Authenticated
       else Auth.Waiting) ∧
    (next_state hash64 s (Action.PressKey Key.Enter)).keystroke_register = [] := by
  obtain ⟨cash, ph, reg⟩ := s
  replace hph : ph = Auth.Authenticating c := hph
  subst hph
  simp only [next_state]
  split <;> simp_all

theorem c3_witness :
    (Atm.mk 10 (Auth.Authenticating 0) [Key.Two]).expected_pin_hash =
      Auth.Authenticating 0 ∧
    (next_state (fun _ => 0) (Atm.mk 10 (Auth.Authenticating 0) [Key.Two])
        (Action.PressKey Key.Enter)).expected_pin_hash =
      (if (fun (_ : Auth) => 0) (Auth.Authenticating 0) = 0 then Auth.Authenticated
       else Auth.Waiting) ∧
    (next_state (fun _ => 0) (Atm.mk 10 (Auth.Authenticating 0) [Key.Two])
        (Action.PressKey Key.Enter)).keystroke_register = [] := by
  refine ⟨rfl, ?_⟩
  exact c3_enter_checks_phase_fingerprint (fun _ => 0)
    (Atm.mk 10 (Auth.Authenticating 0) [Key.Two]) 0 rfl

/-- C4: from phase `Authenticated`, if the register does not parse to an
amount, or parses to an amount above `cash_inside`, pressing `Enter`
resets the phase to `Waiting` and clears the register while leaving
`cash_inside` exactly unchanged. -/
theorem c4_rejected_withdrawal_no_deduction (hash64 : Auth → Nat) (s : Atm)
    (hph : s.expected_pin_hash = Auth.Authenticated)
    (hrej : calculate_withdrawal_amount s.keystroke_register = none ∨
      ∃ a, calculate_withdrawal_amount s.keystroke_register = some a ∧
        s.cash_inside < a) :
    next_state hash64 s (Action.PressKey Key.Enter) =
      Atm.mk s.cash_inside Auth.Waiting [] := by
  obtain ⟨c, ph, reg⟩ := s
  replace hph : ph = Auth.Authenticated := hph
  subst hph
  rcases hrej with hnone | ⟨a, hsome, hgt⟩
  · replace hnone : calculate_withdrawal_amount reg = none := hnone
    simp [next_state, hnone]
  · replace hsome : calculate_withdrawal_amount reg = some a := hsome
    replace hgt : c < a := hgt
    simp [next_state, hsome, Nat.not_le.mpr hgt]

theorem c4_witness :
    (Atm.mk 10 Auth.Authenticated [Key.One, Key.Four]).expected_pin_hash =
      Auth.Authenticated ∧
    calculate_withdrawal_amount
        (Atm.mk 10 Auth.Authenticated [Key.One, Key.Four]).keystroke_register =
      some 14 ∧
    next_state (fun _ => 0) (Atm.mk 10 Auth.Authenticated [Key.One, Key.Four])
        (Action.PressKey Key.Enter) =
      Atm.mk 10 Auth.Waiting [] :=
  ⟨rfl, by decide,
    c4_rejected_withdrawal_no_deduction (fun _ => 0)
      (Atm.mk 10 Auth.Authenticated [Key.One, Key.Four]) rfl
      (Or.inr ⟨14, by decide, by decide⟩)⟩

/-- C7: swiping any card while in phase `Authenticating c` returns the
input state unchanged: the original credential is retained, and the
register and `cash_inside` are untouched. -/
theorem c7_swipe_mid_authentication_noop (hash64 : Auth → Nat) (s : Atm)
    (c : Nat) (hph : s.expected_pin_hash = Auth.Authenticating c)
    (c2 : Nat) :
    next_state hash64 s (Action.SwipeCard c2) = s := by
  obtain ⟨cash, ph, reg⟩ := s
  replace hph : ph = Auth.Authenticating c := hph
  subst hph
  simp [next_state]

theorem c7_witness :
    (Atm.mk 10 (Auth.Authenticating 1234) [Key.One, Key.Three]).expected_pin_hash =
      Auth.Authenticating 1234 ∧
    next_state (fun _ => 0)
        (Atm.mk 10 (Auth.Authenticating 1234) [Key.One, Key.Three])
        (Action.SwipeCard 9999) =
      Atm.mk 10 (Auth.Authenticating 1234) [Key.One, Key.Three] :=
  ⟨rfl,
    c7_swipe_mid_authentication_noop (fun _ => 0)
      (Atm.mk 10 (Auth.Authenticating 1234) [Key.One, Key.Three]) 1234 rfl 9999⟩

/-- C9: pressing any digit key (any key other than `Enter`) in any phase
returns the input state unchanged: the only `PressKey` branches of the
match are for `Enter`, so digit presses fall into the default clone
arm. -/
theorem c9_digit_press_noop_all_phases (hash64 : Auth → Nat) (s : Atm)
    (k : Key) (hk : k ≠ Key.Enter) :
    next_state hash64 s (Action.PressKey k) = s := by
  obtain ⟨cash, ph, reg⟩ := s
  cases ph <;> cases k <;> first
    | exact absurd rfl hk
    | simp [next_state]

/-- C5 helper: one step either preserves `cash_inside` exactly, or is a
withdrawal of a parsed amount bounded by the current inventory. -/
theorem next_state_cash_cases (hash64 : Auth → Nat) (s : Atm) (t : Action) :
    (next_state hash64 s t).cash_inside = s.cash_inside ∨
      ∃ a, calculate_withdrawal_amount s.keystroke_register = some a ∧
        a ≤ s.cash_inside ∧
        (next_state hash64 s t).cash_inside = s.cash_inside - a := by
  obtain ⟨c, ph, reg⟩ := s
  cases t with
  | SwipeCard p => cases ph <;> exact Or.inl rfl
  | PressKey k =>
      cases ph <;> cases k <;> try exact Or.inl rfl
      · left
        simp only [next_state]
        split <;> rfl
      · rcases hc : calculate_withdrawal_amount reg with _ | a
        · left
          simp [next_state, hc]
        · by_cases hle : a ≤ c
          · right
            exact ⟨a, rfl, hle, by simp [next_state, hc, hle]⟩
          · left
            simp [next_state, hc, hle]

/-- C5: starting from the initial state, `cash_inside` stays
non-negative along every event sequence, and a step decreases
`cash_inside` only when the register parses to an amount bounded by the
current inventory, in which case exactly that amount is deducted. -/
theorem c5_cash_nonneg_and_guarded (hash64 : Auth → Nat) (cash0 : Nat)
    (acts : List Action) :
    0 ≤ (run hash64 (initialAtm cash0) acts).cash_inside ∧
    (∀ s t, (next_state hash64 s t).cash_inside < s.cash_inside →
      ∃ a, calculate_withdrawal_amount s.keystroke_register = some a ∧
        a ≤ s.cash_inside ∧
        (next_state hash64 s t).cash_inside = s.cash_inside - a) := by
  refine ⟨Nat.zero_le _, ?_⟩
  intro s t hlt
  rcases next_state_cash_cases hash64 s t with heq | ⟨a, hsome, hle, hsub⟩
  · omega
  · exact ⟨a, hsome, hle, hsub⟩

theorem c5_witness :
    ∃ a, calculate_withdrawal_amount
        (Atm.mk 10 Auth.Authenticated [Key.One]).keystroke_register = some a ∧
      a ≤ (Atm.mk 10 Auth.Authenticated [Key.One]).cash_inside ∧
      (next_state (fun _ => 0) (Atm.mk 10 Auth.Authenticated [Key.One])
          (Action.PressKey Key.Enter)).cash_inside =
        (Atm.mk 10 Auth.Authenticated [Key.One]).cash_inside - a :=
  (c5_cash_nonneg_and_guarded (fun _ => 0) 10 []).2
    (Atm.mk 10 Auth.Authenticated [Key.One]) (Action.PressKey Key.Enter)
    (by decide)

/-- C6: `next_state` is a total function — it returns a state for every
input pair — and the pairs not covered by the transition table (a key
press in `Waiting`, a card swipe in `Authenticated`) return the input
state unchanged. -/
theorem c6_total_and_uncovered_noop (hash64 : Auth → Nat) :
    (∀ s t, ∃ s2, next_state hash64 s t = s2) ∧
    (∀ s t,
      ((s.expected_pin_hash = Auth.Waiting ∧ ∃ k, t = Action.PressKey k) ∨
       (s.expected_pin_hash = Auth.Authenticated ∧ ∃ c, t = Action.SwipeCard c)) →
      next_state hash64 s t = s) := by
  constructor
  · intro s t
    exact ⟨next_state hash64 s t, rfl⟩
  · rintro s t (⟨hph, k, rfl⟩ | ⟨hph, c2, rfl⟩)
    · obtain ⟨c, ph, reg⟩ := s
      replace hph : ph = Auth.Waiting := hph
      subst hph
      cases k <;> simp [next_state]
    · obtain ⟨c, ph, reg⟩ := s
      replace hph : ph = Auth.Authenticated := hph
      subst hph
      simp [next_state]

theorem c6_witness :
    next_state (fun _ => 0) (Atm.mk 5 Auth.Waiting []) (Action.PressKey Key.Enter) =
      Atm.mk 5 Auth.Waiting [] :=
  (c6_total_and_uncovered_noop (fun _ => 0)).2 (Atm.mk 5 Auth.Waiting [])
    (Action.PressKey Key.Enter) (Or.inl ⟨rfl, ⟨Key.Enter, rfl⟩⟩)

/-- C8: in every state reachable from the initial state the keystroke
register is non-empty only in the in-session phases, and every step that
changes the phase away from an in-session phase produces an empty
register. -/
theorem c8_register_empty_outside_auth (hash64 : Auth → Nat) (cash0 : Nat)
    (acts : List Action) :
    ((run hash64 (initialAtm cash0) acts).keystroke_register ≠ [] →
      inAuthSession
        (run hash64 (initialAtm cash0) acts).expected_pin_hash = true) ∧
    (∀ s t, inAuthSession s.expected_pin_hash = true →
      (next_state hash64 s t).expected_pin_hash ≠ s.expected_pin_hash →
      (next_state hash64 s t).keystroke_register = []) := by
  constructor
  · intro hne
    exact absurd (run_keeps_empty_register hash64 acts _ rfl) hne
  · intro s t hin hch
    obtain ⟨c, ph, reg⟩ := s
    cases t with
    | SwipeCard p => cases ph <;> simp_all [next_state, inAuthSession]
    | PressKey k =>
        cases ph <;> cases k <;>
          first
            | exact absurd rfl hch
            | (simp only [next_state]; split <;> (try split) <;> rfl)

theorem c8_witness :
    (next_state (fun _ => 0) (Atm.mk 10 (Auth.Authenticating 5) [Key.One])
        (Action.PressKey Key.Enter)).keystroke_register = [] :=
  (c8_register_empty_outside_auth (fun _ => 0) 10 []).2
    (Atm.mk 10 (Auth.Authenticating 5) [Key.One]) (Action.PressKey Key.Enter)
    (by decide) (by decide)

/-- C10: `calculate_withdrawal_amount` reads the digit prefix before the
first `Enter` and parses it as a `u64`: it succeeds exactly on a
non-empty prefix whose decimal value is below `2 ^ 64`, and an
over-range amount makes it return `none`, so the withdrawal is rejected
with `cash_inside` unchanged — no wraparound or truncation. -/
theorem c10_parse_u64_range (ks : List Key) :
    calculate_withdrawal_amount ks =
      (if keysBeforeEnter ks = [] then none
       else if decVal (keysBeforeEnter ks) < 2 ^ 64 then
         some (decVal (keysBeforeEnter ks))
       else none) ∧
    (∀ (hash64 : Auth → Nat) (s : Atm),
      s.expected_pin_hash = Auth.Authenticated →
      s.keystroke_register = ks →
      2 ^ 64 ≤ decVal (keysBeforeEnter ks) →
      (next_state hash64 s (Action.PressKey Key.Enter)).cash_inside =
        s.cash_inside) := by
  refine ⟨calculate_withdrawal_amount_spec ks, ?_⟩
  intro hash64 s hph hreg hbig
  have hnone : calculate_withdrawal_amount ks = none := by
    rw [calculate_withdrawal_amount_spec ks]
    have h1 : ¬ decVal (keysBeforeEnter ks) < 2 ^ 64 := Nat.not_lt.mpr hbig
    by_cases h0 : keysBeforeEnter ks = []
    · exfalso
      rw [h0] at hbig
      norm_num [decVal] at hbig
    · simp only [h0, if_neg, h1, if_false]
  obtain ⟨c, ph, reg⟩ := s
  replace hph : ph = Auth.Authenticated := hph
  subst hph
  replace hreg : reg = ks := hreg
  subst hreg
  simp [next_state, hnone]

theorem c10_witness :
    (next_state (fun _ => 0)
        (Atm.mk 5 Auth.Authenticated (List.replicate 20 Key.Four))
        (Action.PressKey Key.Enter)).cash_inside =
      (Atm.mk 5 Auth.Authenticated (List.replicate 20 Key.Four)).cash_inside :=
  (c10_parse_u64_range (List.replicate 20 Key.Four)).2 (fun _ => 0)
    (Atm.mk 5 Auth.Authenticated (List.replicate 20 Key.Four)) rfl rfl
    (by decide)

theorem c9_witness :
    Key.Two ≠ Key.Enter ∧
    next_state (fun _ => 0) (Atm.mk 10 Auth.Authenticated [Key.One])
        (Action.PressKey Key.Two) =
      Atm.mk 10 Auth.Authenticated [Key.One] :=
  ⟨by decide,
    c9_digit_press_noop_all_phases (fun _ => 0)
      (Atm.mk 10 Auth.Authenticated [Key.One]) Key.Two (by decide)⟩

end StateMachineAtm
